import Mathlib

/-!
Shallow embedding of the IntentText core parser (packages/core/src/parser.ts
with its data model from packages/core/src/types.ts).  JS strings are
modelled as `List Char`; JS objects holding optional fields are modelled with
`Option`; the `uuidv4()` id supply is modelled as a deterministic call
counter (`Nat`), with an external id stream `gen : Nat → List Char` applied
on top for claims about the random id source.
-/

namespace IntentText

/-- JS `\s` whitespace class (the characters relevant to this code base). -/
def isJsWs (c : Char) : Bool :=
  c = ' ' || c = '\t' || c = '\n' || c = '\r' ||
  c.toNat = 0x0B || c.toNat = 0x0C || c.toNat = 0xA0 ||
  c.toNat = 0x2028 || c.toNat = 0x2029 || c.toNat = 0xFEFF

/-- JS line terminators (not matched by `.` in a regex without the `s` flag). -/
def isJsTerm (c : Char) : Bool :=
  c = '\n' || c = '\r' || c.toNat = 0x2028 || c.toNat = 0x2029

/-- A segment free of line terminators, i.e. fully matchable by `.*`. -/
def noTerm (l : List Char) : Bool := l.all (fun c => !isJsTerm c)

/-- JS `String.prototype.trim`. -/
def jsTrim (l : List Char) : List Char :=
  ((l.dropWhile isJsWs).reverse.dropWhile isJsWs).reverse

/-- JS `String.prototype.toLowerCase` restricted to the ASCII range used here. -/
def jsLower (l : List Char) : List Char := l.map Char.toLower

/-- parser.ts `detectArabic`: regex `[؀-ۿ]` test. -/
def detectArabic (l : List Char) : Bool :=
  l.any (fun c => decide (0x600 ≤ c.toNat) && decide (c.toNat ≤ 0x6FF))

/-- parser.ts `unescapeIntentText`: `\\` and `\|` collapse to the bare
character, any other backslash is kept literally.  In the non-escape case
the source emits the backslash and rescans at the next character; since that
character is then not a backslash, its own iteration is the plain emit,
inlined here so the recursion is structural. -/
def unescapeIntentText : List Char → List Char
  | [] => []
  | '\\' :: c :: rest =>
      if c = '\\' ∨ c = '|' then c :: unescapeIntentText rest
      else '\\' :: c :: unescapeIntentText rest
  | c :: rest => c :: unescapeIntentText rest

/-- Number of consecutive backslashes at the head of a reversed prefix,
i.e. immediately before the current scan position. -/
def trailingBackslashes : List Char → Nat
  | '\\' :: r => trailingBackslashes r + 1
  | _ => 0

/-- Loop of parser.ts `splitPipeMetadata`: `rp` is the reversed prefix of
already-scanned characters (used for the backslash-escape lookbehind), `cur`
the segment under construction.  A delimiter requires the three characters
`space pipe space` to be present, and splits unless the number of
backslashes immediately before the first space is odd; an escaped candidate
advances the scan by one character.

The scan consumes at least one character per step, so a fuel of
`rest.length` (supplied by `splitPipeMetadata`) is sufficient. -/
def splitPipeAux : Nat → List Char → List Char → List Char → List (List Char)
  | 0, _, _, cur => [cur]
  | _, _, [], cur => [cur]
  | fuel + 1, rp, ' ' :: '|' :: ' ' :: l₃, cur =>
      if trailingBackslashes rp % 2 = 1 then
        splitPipeAux fuel (' ' :: rp) ('|' :: ' ' :: l₃) (cur ++ [' '])
      else
        cur :: splitPipeAux fuel (' ' :: '|' :: ' ' :: rp) l₃ []
  | fuel + 1, rp, c :: rest, cur => splitPipeAux fuel (c :: rp) rest (cur ++ [c])

/-- parser.ts `splitPipeMetadata`. -/
def splitPipeMetadata (rest : List Char) : List (List Char) :=
  splitPipeAux rest.length [] rest []

/-- Loop of parser.ts `splitTableRow`: split on unescaped `|` with a
one-character `escaping` latch. -/
def splitTableRowAux : Bool → List Char → List Char → List (List Char)
  | _, cur, [] => [cur]
  | true, cur, c :: rest => splitTableRowAux false (cur ++ [c]) rest
  | false, cur, c :: rest =>
      if c = '\\' then splitTableRowAux true (cur ++ [c]) rest
      else if c = '|' then cur :: splitTableRowAux false [] rest
      else splitTableRowAux false (cur ++ [c]) rest

/-- parser.ts `splitTableRow`: cells are trimmed, unescaped, and empty cells
dropped. -/
def splitTableRow (text : List Char) : List (List Char) :=
  ((splitTableRowAux false [] text).map
    (fun c => unescapeIntentText (jsTrim c))).filter (fun c => c ≠ [])

/-! ### Inline tokenizer -/

inductive InlineType where
  | text | bold | italic | strike | code
  deriving DecidableEq, Repr

structure InlineNode where
  type : InlineType
  value : List Char
  deriving DecidableEq, Repr

/-- The `text.indexOf(d, i+1)` scan as a splitter: the characters strictly before the
first occurrence of `d`, and the characters strictly after it. -/
def splitAtChar (d : Char) : List Char → Option (List Char × List Char)
  | [] => none
  | c :: rest =>
      if c = d then some ([], rest)
      else (splitAtChar d rest).map (fun p => (c :: p.1, p.2))

/-- The `text.indexOf("```", i+3)` scan as a splitter. -/
def splitAtTriple : List Char → Option (List Char × List Char)
  | '`' :: '`' :: '`' :: rest => some ([], rest)
  | [] => none
  | c :: rest => (splitAtTriple rest).map (fun p => (c :: p.1, p.2))

def isDelim (c : Char) : Bool := c = '*' || c = '_' || c = '~'

def startsTriple : List Char → Bool
  | '`' :: '`' :: '`' :: _ => true
  | _ => false

/-- The plain-text run scan of `parseInlineNodes`: after the first character
has been taken, keep extending while the next position neither starts a
triple backtick nor holds a single-character delimiter. -/
def plainExtend : List Char → List Char × List Char
  | [] => ([], [])
  | l@(c :: rest) =>
      if startsTriple l || isDelim c then ([], l)
      else
        let p := plainExtend rest
        (c :: p.1, p.2)

def delimType (c : Char) : InlineType :=
  if c = '*' then .bold else if c = '_' then .italic else .strike

/-- parser.ts `parseInlineNodes` body.  Every `pushText`/`pushNode` in the
source appends `value` both to `content` and to the run list; each branch
below mirrors that by prepending the same `value` to both components of the
result.  The scan consumes at least one character per step, so a fuel of
`text.length` (supplied by `parseInlineNodes`) is sufficient. -/
def parseInlineAux : Nat → List Char → List Char × List InlineNode
  | 0, _ => ([], [])
  | _, [] => ([], [])
  | fuel + 1, '`' :: '`' :: '`' :: rest =>
      match splitAtTriple rest with
      | none =>
          let p := parseInlineAux fuel rest
          ('`' :: '`' :: '`' :: p.1, ⟨.text, ['`', '`', '`']⟩ :: p.2)
      | some (value, after) =>
          let p := parseInlineAux fuel after
          (value ++ p.1, ⟨.code, value⟩ :: p.2)
  | fuel + 1, c :: rest =>
      if isDelim c then
        match splitAtChar c rest with
        | none =>
            let p := parseInlineAux fuel rest
            (c :: p.1, ⟨.text, [c]⟩ :: p.2)
        | some (value, after) =>
            let p := parseInlineAux fuel after
            (value ++ p.1, ⟨delimType c, value⟩ :: p.2)
      else
        let q := plainExtend rest
        let p := parseInlineAux fuel q.2
        ((c :: q.1) ++ p.1, ⟨.text, c :: q.1⟩ :: p.2)

/-- parser.ts `parseInlineNodes`: returns `(content, inline)`. -/
def parseInlineNodes (text : List Char) : List Char × List InlineNode :=
  parseInlineAux text.length text

/-- Concatenation of the `value` fields of a run list. -/
def joinValues (ns : List InlineNode) : List Char :=
  (ns.map InlineNode.value).flatten

/-! ### Data model (types.ts) -/

inductive BlockType where
  | title | summary | section_ | sub | divider | note | headers | row
  | table | extension | task | done | question | image | link | ref
  | code | end_ | listItem | stepItem | bodyText
  deriving DecidableEq, Repr

inductive Severity where
  | error | warning
  deriving DecidableEq, Repr

inductive DiagCode where
  | UNTERMINATED_CODE_BLOCK | UNEXPECTED_END | INVALID_PROPERTY_SEGMENT
  | HEADERS_WITHOUT_ROWS | ROW_WITHOUT_HEADERS | UNKNOWN_EXTENSION_KEYWORD
  | EXTENSION_VALIDATION
  deriving DecidableEq, Repr

structure Diagnostic where
  severity : Severity
  code : DiagCode
  message : List Char
  line : Nat
  column : Nat
  deriving DecidableEq, Repr

structure TablePayload where
  headers : Option (List (List Char))
  rows : List (List (List Char))
  deriving DecidableEq, Repr

/-- types.ts `IntentBlock`.  `id` is the index of the `uuidv4()` call that
created the block (see `parseIntentTextWith` for the id stream); `marks` is
deprecated and never produced by the parser, so it is omitted. -/
inductive IntentBlock where
  | mk (id : Nat) (type : BlockType) (content : List Char)
       (originalContent : Option (List Char))
       (inline : Option (List InlineNode))
       (properties : Option (List (List Char × List Char)))
       (children : Option (List IntentBlock))
       (table : Option TablePayload)

def IntentBlock.id : IntentBlock → Nat
  | .mk i _ _ _ _ _ _ _ => i

def IntentBlock.type : IntentBlock → BlockType
  | .mk _ t _ _ _ _ _ _ => t

def IntentBlock.content : IntentBlock → List Char
  | .mk _ _ c _ _ _ _ _ => c

def IntentBlock.originalContent : IntentBlock → Option (List Char)
  | .mk _ _ _ oc _ _ _ _ => oc

def IntentBlock.inline : IntentBlock → Option (List InlineNode)
  | .mk _ _ _ _ inl _ _ _ => inl

def IntentBlock.properties : IntentBlock → Option (List (List Char × List Char))
  | .mk _ _ _ _ _ pr _ _ => pr

def IntentBlock.children : IntentBlock → Option (List IntentBlock)
  | .mk _ _ _ _ _ _ ch _ => ch

def IntentBlock.table : IntentBlock → Option TablePayload
  | .mk _ _ _ _ _ _ _ tb => tb

structure DocMetadata where
  title : Option (List Char)
  summary : Option (List Char)
  language : List Char
  deriving Repr

structure IntentDocument where
  blocks : List IntentBlock
  metadata : DocMetadata
  diagnostics : Option (List Diagnostic)

/-! ### Line classifier (parser.ts `parseLine`) -/

/-- parser.ts `KEYWORDS` (also exported from types.ts). -/
def KEYWORDS : List (List Char) :=
  [ "title".data, "summary".data, "section".data, "sub".data,
    "divider".data, "note".data, "headers".data, "row".data,
    "task".data, "done".data, "question".data, "image".data,
    "link".data, "ref".data, "code".data, "end".data]

/-- The `keyword as BlockType` cast at the end of `parseLine` (only applied
to core keywords). -/
def kwToType (kw : List Char) : BlockType :=
  if kw = ( "title".data) then .title
  else if kw = ( "summary".data) then .summary
  else if kw = ( "section".data) then .section_
  else if kw = ( "sub".data) then .sub
  else if kw = ( "divider".data) then .divider
  else if kw = ( "note".data) then .note
  else if kw = ( "headers".data) then .headers
  else if kw = ( "row".data) then .row
  else if kw = ( "task".data) then .task
  else if kw = ( "done".data) then .done
  else if kw = ( "question".data) then .question
  else if kw = ( "image".data) then .image
  else if kw = ( "link".data) then .link
  else if kw = ( "ref".data) then .ref
  else if kw = ( "code".data) then .code
  else if kw = ( "end".data) then .end_
  else .bodyText

def isKwChar (c : Char) : Bool := c.isAlpha || c.isDigit || c = '-'

/-- The keyword-line regex `^([a-zA-Z][a-zA-Z0-9-]*):\s*(.*)$` of
`parseLine`: the keyword is the maximal run of keyword characters starting
with a letter, it must be followed by `:`, greedy `\s*` strips the
whitespace after the colon, and `(.*)$` requires the remainder to be free of
line terminators. -/
def keywordMatch (trimmed : List Char) : Option (List Char × List Char) :=
  match trimmed with
  | [] => none
  | c :: _ =>
    if c.isAlpha then
      match trimmed.dropWhile isKwChar with
      | ':' :: tail =>
          let rest := tail.dropWhile isJsWs
          if noTerm rest then some (trimmed.takeWhile isKwChar, rest) else none
      | _ => none
    else none

/-- The ordered-list regex `^(\d+)\.\s+(.+)$` of `parseLine`, returning the
second capture group. -/
def orderedMatch (trimmed : List Char) : Option (List Char) :=
  if trimmed.takeWhile Char.isDigit = [] then none
  else
    match trimmed.dropWhile Char.isDigit with
    | '.' :: rest₂ =>
        let ws := rest₂.takeWhile isJsWs
        let c₀ := rest₂.dropWhile isJsWs
        if ws ≠ [] ∧ c₀ ≠ [] ∧ noTerm c₀ then some c₀ else none
    | _ => none

/-- The property-segment regex `^([^:]+):\s*(.*)$` of `parseLine`. -/
def propSegmentMatch (segment : List Char) : Option (List Char × List Char) :=
  match segment.dropWhile (fun c => c ≠ ':') with
  | ':' :: tail =>
      if segment.takeWhile (fun c => c ≠ ':') = [] then none
      else
        let v := tail.dropWhile isJsWs
        if noTerm v then some (segment.takeWhile (fun c => c ≠ ':'), v) else none
  | _ => none

/-- All diagnostics in parser.ts are emitted with `column: 1`. -/
def mkDiag (sev : Severity) (c : DiagCode) (msg : List Char) (ln : Nat) : Diagnostic :=
  ⟨sev, c, msg, ln, 1⟩

/-- JS object property assignment `properties[key] = value`: an existing key
keeps its position and gets the new value, a new key is appended. -/
def recordSet (props : List (List Char × List Char)) (k v : List Char) :
    List (List Char × List Char) :=
  if props.any (fun p => p.1 = k) then
    props.map (fun p => if p.1 = k then (k, v) else p)
  else props ++ [(k, v)]

/-- Processing of one pipe-metadata segment after the first (`parseLine`
lines handling `parts[i]`, `i ≥ 1`): accumulator is
`(content, properties, diagnostics)`. -/
def procSegment (lineNo : Nat)
    (acc : List Char × List (List Char × List Char) × List Diagnostic)
    (segment : List Char) :
    List Char × List (List Char × List Char) × List Diagnostic :=
  match propSegmentMatch segment with
  | some (k₀, v₀) =>
      let key := jsTrim k₀
      let rawValue := jsTrim v₀
      if key.contains '\\' ∨ key.contains '|' then
        (acc.1 ++ ( " | ".data) ++ unescapeIntentText segment, acc.2.1,
         acc.2.2 ++ [⟨.warning, .INVALID_PROPERTY_SEGMENT,
           ( "Invalid property key '".data) ++ key ++
           ( "'. Property keys must not contain escapes.".data), lineNo, 1⟩])
      else
        (acc.1, recordSet acc.2.1 key (unescapeIntentText rawValue), acc.2.2)
  | none =>
      (acc.1 ++ ( " | ".data) ++ unescapeIntentText segment, acc.2.1,
       acc.2.2 ++ [⟨.warning, .INVALID_PROPERTY_SEGMENT,
         ( "Invalid property segment '".data) ++ jsTrim segment ++
         ( "'. Expected 'key: value'.".data), lineNo, 1⟩])

structure LineResult where
  block : Option IntentBlock
  diags : List Diagnostic
  counter : Nat

/-- The content/properties/diagnostics extraction of `parseLine`'s known
keyword branch: `headers`/`row` keep the raw remainder, all other keywords
split pipe metadata and process the `key: value` segments. -/
def keywordContentProps (lineNo : Nat) (keyword rest : List Char) :
    List Char × List (List Char × List Char) × List Diagnostic :=
  if keyword = ( "headers".data) ∨ keyword = ( "row".data) then (rest, ([], []))
  else
    let parts := splitPipeMetadata rest
    parts.tail.foldl (procSegment lineNo)
      (unescapeIntentText (parts.headD []), ([], []))

/-- The keyword-line branch of `parseLine` (with no extensions registered,
so the keyword set is `KEYWORDS` and the extension hooks are no-ops). -/
def parseKeywordLine (counter lineNo : Nat) (trimmed kwRaw rest : List Char) :
    LineResult :=
  let keyword := jsLower kwRaw
  let isKnown := KEYWORDS.contains keyword
  let looksLikeExt :=
    keyword.take 2 = ( "x-".data) ∨ keyword.take 4 = ( "ext-".data)
  if ¬ isKnown then
    if looksLikeExt then
      let p := parseInlineNodes trimmed
      ⟨some (.mk counter .extension p.1 (some trimmed) (some p.2)
          (some [( "keyword".data, keyword)]) none none),
       [mkDiag .warning .UNKNOWN_EXTENSION_KEYWORD
          (( "Unknown extension keyword '".data) ++ keyword ++ ( ":'".data)) lineNo],
       counter + 1⟩
    else
      let p := parseInlineNodes trimmed
      ⟨some (.mk counter .bodyText p.1 (some trimmed) (some p.2) none none none),
       [], counter + 1⟩
  else
    let cpd := keywordContentProps lineNo keyword rest
    let content := cpd.1
    let props := cpd.2.1
    let segDiags := cpd.2.2
    let p := parseInlineNodes content
    if ¬ KEYWORDS.contains keyword ∧ looksLikeExt then
      -- unreachable without registered extensions, kept for fidelity
      ⟨some (.mk counter .extension p.1 (some content) (some p.2)
          (some (recordSet props ( "keyword".data) keyword)) none none),
       segDiags, counter + 1⟩
    else
      ⟨some (.mk counter (kwToType keyword) p.1 (some content) (some p.2)
          (if props = [] then none else some props) none none),
       segDiags, counter + 1⟩

/-- The plain list-item construction of `parseLine` (lines after the
embedded re-parse when its result is discarded or absent). -/
def plainListItem (counter : Nat) (payload : List Char) : Option IntentBlock :=
  let unescaped := unescapeIntentText payload
  let p := parseInlineNodes unescaped
  some (.mk counter .listItem p.1 (some unescaped) (some p.2) none none none)

/-- The `- ` / `* ` list-item branch of `parseLine`, given the result `r` of
re-parsing the payload: a non-list embedded block is wrapped as the single
child of a list-item carrying the same fields, otherwise a plain list-item
is built from the payload. -/
def listItemFrom (r : LineResult) (payload : List Char) : LineResult :=
  match r.block with
  | some emb =>
      if emb.type ≠ .listItem ∧ emb.type ≠ .stepItem then
        ⟨some (.mk r.counter .listItem emb.content emb.originalContent
            emb.inline emb.properties (some [emb]) none),
         r.diags, r.counter + 1⟩
      else ⟨plainListItem r.counter payload, r.diags, r.counter + 1⟩
  | none => ⟨plainListItem r.counter payload, r.diags, r.counter + 1⟩

/-- The ordered-list branch of `parseLine`. -/
def stepItemFrom (counter : Nat) (c₀ : List Char) : LineResult :=
  let content := unescapeIntentText c₀
  let p := parseInlineNodes content
  ⟨some (.mk counter .stepItem p.1 (some content) (some p.2) none none none),
   [], counter + 1⟩

/-- The body-text fallback of `parseLine`. -/
def bodyTextFrom (counter : Nat) (trimmed : List Char) : LineResult :=
  let unescaped := unescapeIntentText trimmed
  let p := parseInlineNodes unescaped
  ⟨some (.mk counter .bodyText p.1 (some unescaped) (some p.2) none none none),
   [], counter + 1⟩

/-- parser.ts `parseLine`.  The recursion for the `- ` / `* ` list shorthand
re-parses the strictly shorter payload; the fuel argument (`line.length`,
supplied by `parseLine`) makes that recursion structural and is sufficient
because the payload is at least two characters shorter than the line. -/
def parseLineF : Nat → Nat → Nat → List Char → LineResult
  | 0, counter, _, _ => ⟨none, [], counter⟩
  | fuel + 1, counter, lineNo, line =>
    let trimmed := jsTrim line
    if trimmed = [] then ⟨none, [], counter⟩
    else
      match keywordMatch trimmed with
      | some (kwRaw, rest) => parseKeywordLine counter lineNo trimmed kwRaw rest
      | none =>
        if trimmed.take 2 = ( "- ".data) ∨ trimmed.take 2 = ( "* ".data) then
          let payload := trimmed.drop 2
          listItemFrom (parseLineF fuel counter lineNo payload) payload
        else
          match orderedMatch trimmed with
          | some c₀ => stepItemFrom counter c₀
          | none => bodyTextFrom counter trimmed

/-- parser.ts `parseLine`. -/
def parseLine (counter lineNo : Nat) (line : List Char) : LineResult :=
  parseLineF line.length counter lineNo line

/-! ### Document assembler (parser.ts `parseIntentText`)

The mutable top-level `blocks` array together with the `currentSection`
object reference is represented as a zipper: `pre` holds the blocks before
the currently open section, `cur` the open section itself (whose `children`
are still being appended to), and `post` the top-level blocks pushed after
it while it stayed open.  The visible array is always
`pre ++ cur ++ post`. -/

def msgHeadersNoRows : List Char := "Table headers found with no following rows.".data
def msgRowNoHeaders : List Char := "Table row found without preceding headers.".data
def msgUnexpectedEnd : List Char := "Unexpected 'end:' outside of a code block.".data
def msgUnterminated : List Char :=
  "Unterminated code block. Expected 'end:' before end of file.".data

structure PendingTable where
  headers : Option (List (List Char))
  rows : List (List (List Char))
  originalHeaders : Option (List Char)
  headerLine : Option Nat

structure ParseSt where
  pre : List IntentBlock
  cur : Option IntentBlock
  post : List IntentBlock
  diags : List Diagnostic
  codeCapture : Bool
  codeContent : List (List Char)
  codeStartLine : Nat
  pending : Option PendingTable
  counter : Nat

/-- The top-level block list as the source's `blocks` array reads at this
point. -/
def stBlocks (st : ParseSt) : List IntentBlock :=
  st.pre ++ (match st.cur with | some c => [c] | none => []) ++ st.post

/-- Source `blocks.push(b)` with `currentSection` left open. -/
def pushTop (st : ParseSt) (b : IntentBlock) : ParseSt :=
  { st with post := st.post ++ [b] }

/-- Source `currentSection.children.push(b)` including the `!children` guard. -/
def addChild (p b : IntentBlock) : IntentBlock :=
  match p with
  | .mk i t c oc inl pr ch tb => .mk i t c oc inl pr (some (ch.getD [] ++ [b])) tb

/-- Source `currentSection = block; currentSection.children = []`. -/
def setChildrenEmpty (b : IntentBlock) : IntentBlock :=
  match b with
  | .mk i t c oc inl pr _ tb => .mk i t c oc inl pr (some []) tb

/-- The `if (currentSection && currentSection.children) … else blocks.push`
pattern used for table and code blocks. -/
def pushPlain (st : ParseSt) (b : IntentBlock) : ParseSt :=
  match st.cur with
  | some c =>
      if c.children.isSome then { st with cur := some (addChild c b) }
      else pushTop st b
  | none => pushTop st b

/-- parser.ts `flushPendingTable`. -/
def flushPendingTable (st : ParseSt) : ParseSt :=
  match st.pending with
  | none => st
  | some pt =>
      let hLine := match pt.headerLine with
        | some n => if n = 0 then 1 else n
        | none => 1
      let st₁ :=
        match pt.headers with
        | some hs =>
            if hs ≠ [] ∧ pt.rows = [] then
              { st with diags :=
                  st.diags ++ [mkDiag .warning .HEADERS_WITHOUT_ROWS msgHeadersNoRows hLine] }
            else st
        | none => st
      pushPlain { st₁ with counter := st₁.counter + 1, pending := none }
        (.mk st₁.counter .table (pt.originalHeaders.getD []) none none none none
          (some ⟨pt.headers, pt.rows⟩))

/-- Source `block.originalContent || block.content` (JS `||`: an absent or empty
original falls back to the content). -/
def origOr (b : IntentBlock) : List Char :=
  match b.originalContent with
  | some o => if o = [] then b.content else o
  | none => b.content

/-- The block kinds nested under an open section (parser.ts line 602). -/
def containable (t : BlockType) : Bool :=
  t = .listItem || t = .stepItem || t = .task || t = .done ||
  t = .question || t = .note

/-- Handling of a classified block returned by `parseLine`: table grouping,
section hierarchy, and the section-reset rule. -/
def handleClassified (st : ParseSt) (lineNo : Nat) (b : IntentBlock) : ParseSt :=
  if b.type = .headers then
    let st₁ := flushPendingTable st
    { st₁ with pending := some ⟨some (splitTableRow (origOr b)), [],
        some (origOr b), some lineNo⟩ }
  else if b.type = .row then
    let cells := splitTableRow (origOr b)
    match st.pending with
    | some pt => { st with pending := some { pt with rows := pt.rows ++ [cells] } }
    | none =>
        flushPendingTable
          { st with
            diags := st.diags ++ [mkDiag .warning .ROW_WITHOUT_HEADERS msgRowNoHeaders lineNo],
            pending := some ⟨none, [cells], none, none⟩ }
  else if b.type = .section_ ∨ b.type = .sub then
    { st with pre := stBlocks st, post := [], cur := some (setChildrenEmpty b) }
  else
    match st.cur with
    | some c =>
        if containable b.type then { st with cur := some (addChild c b) }
        else if b.type = .title ∨ b.type = .summary then pushTop st b
        else { st with pre := stBlocks st ++ [b], post := [], cur := none }
    | none =>
        if b.type = .title ∨ b.type = .summary then pushTop st b
        else { st with pre := stBlocks st ++ [b], post := [], cur := none }

/-- The `/^row:\s*/i.test(trimmed)` check of the main loop. -/
def isRowLine (trimmed : List Char) : Bool :=
  jsLower (trimmed.take 4) = ( "row:".data)

/-- The case-sensitive `/^code:\s*(.*)$/` match of the main loop. -/
def codeLineMatch (trimmed : List Char) : Option (List Char) :=
  if trimmed.take 5 = ( "code:".data) then
    let rest := (trimmed.drop 5).dropWhile isJsWs
    if noTerm rest then some rest else none
  else none

/-- The flush at the top of the main loop: a pending table is flushed
unless the current line is a `row:` line. -/
def preFlush (st : ParseSt) (trimmed : List Char) : ParseSt :=
  if st.pending.isSome ∧ ¬ isRowLine trimmed then flushPendingTable st else st

/-- The body of one main-loop iteration after the pending-table flush. -/
def stepLineCore (st : ParseSt) (lineNo : Nat) (line trimmed : List Char) : ParseSt :=
  if st.codeCapture then
    if jsLower trimmed = ( "end:".data) then
      pushPlain
        { st with
          counter := st.counter + 1, codeCapture := false,
          codeContent := [], codeStartLine := 0 }
        (.mk st.counter .code (List.intercalate [ '\n' ] st.codeContent)
          none none none none none)
    else { st with codeContent := st.codeContent ++ [line] }
  else if jsLower trimmed = ( "end:".data) then
    { st with diags := st.diags ++ [mkDiag .warning .UNEXPECTED_END msgUnexpectedEnd lineNo] }
  else
    match codeLineMatch trimmed with
    | some rest =>
        if rest = [] then { st with codeCapture := true, codeStartLine := lineNo }
        else
          pushPlain { st with counter := st.counter + 1 }
            (.mk st.counter .code rest none none none none none)
    | none =>
        let r := parseLine st.counter lineNo line
        let st₁ := { st with diags := st.diags ++ r.diags, counter := r.counter }
        match r.block with
        | none => st₁
        | some b => handleClassified st₁ lineNo b

/-- One iteration of the main line loop of `parseIntentText`
(`lineNo` is the 1-based line number `i + 1`). -/
def stepLine (st : ParseSt) (lineNo : Nat) (line : List Char) : ParseSt :=
  let trimmed := jsTrim line
  stepLineCore (preFlush st trimmed) lineNo line trimmed

/-- Source `fileContent.split(/\r?\n/)`. -/
def splitLines : List Char → List (List Char)
  | [] => [[]]
  | '\r' :: '\n' :: rest => [] :: splitLines rest
  | '\n' :: rest => [] :: splitLines rest
  | c :: rest =>
      match splitLines rest with
      | [] => [[c]]
      | l :: ls => (c :: l) :: ls

def runLines : ParseSt → Nat → List (List Char) → ParseSt
  | st, _, [] => st
  | st, n, l :: ls => runLines (stepLine st n l) (n + 1) ls

def initSt : ParseSt := ⟨[], none, [], [], false, [], 0, none, 0⟩

/-- End-of-input handling plus metadata extraction of `parseIntentText`. -/
def finalizeSt (totalLines : Nat) (st : ParseSt) : IntentDocument :=
  let st := flushPendingTable st
  let st :=
    if st.codeCapture then
      pushPlain
        { st with
          counter := st.counter + 1,
          diags := st.diags ++ [mkDiag .error .UNTERMINATED_CODE_BLOCK msgUnterminated
            (if st.codeStartLine = 0 then totalLines else st.codeStartLine)] }
        (.mk st.counter .code (List.intercalate [ '\n' ] st.codeContent)
          none none none none none)
    else st
  let blocks := stBlocks st
  { blocks := blocks
    metadata :=
      { title := ((blocks.find? (fun b => b.type = .title)).map IntentBlock.content)
        summary := ((blocks.find? (fun b => b.type = .summary)).map IntentBlock.content)
        language := if blocks.any (fun b => detectArabic b.content)
          then ( "rtl".data) else ( "ltr".data) }
    diagnostics := if st.diags = [] then none else some st.diags }

/-- parser.ts `parseIntentText` (with no extensions registered). -/
def parseIntentText (s : List Char) : IntentDocument :=
  let lines := splitLines s
  finalizeSt lines.length (runLines initSt 1 lines)

/-- Membership of a block in a block's subtree (reflexive, descending
through `children`). -/
inductive InTree : IntentBlock → IntentBlock → Prop where
  | here (b : IntentBlock) : InTree b b
  | via {b c p : IntentBlock} (hc : c ∈ p.children.getD []) (h : InTree b c) :
      InTree b p

/-- Membership of a block anywhere in a document's block forest. -/
def InDoc (b : IntentBlock) (d : IntentDocument) : Prop :=
  ∃ p ∈ d.blocks, InTree b p

/-! ### Concrete blocks appearing in parses used by the claims -/

def c8input : List Char := "section: S\ntask: مرحبا".data

def c8task : IntentBlock :=
  .mk 1 .task ( "مرحبا".data) (some ( "مرحبا".data))
    (some [⟨.text, ( "مرحبا".data)⟩]) none none none

def c8sec : IntentBlock :=
  .mk 0 .section_ ( "S".data) (some ( "S".data)) (some [⟨.text, ( "S".data)⟩])
    none (some [c8task]) none

def c6task : IntentBlock :=
  .mk 1 .task ( "T".data) (some ( "T".data)) (some [⟨.text, ( "T".data)⟩])
    none none none

def c6sec1 : IntentBlock :=
  .mk 0 .section_ ( "S".data) (some ( "S".data)) (some [⟨.text, ( "S".data)⟩])
    none (some [c6task]) none

def c6note : IntentBlock :=
  .mk 2 .note ( "N".data) (some ( "N".data)) (some [⟨.text, ( "N".data)⟩])
    none none none

def c6title : IntentBlock :=
  .mk 1 .title ( "X".data) (some ( "X".data)) (some [⟨.text, ( "X".data)⟩])
    none none none

def c6sec2 : IntentBlock :=
  .mk 0 .section_ ( "S".data) (some ( "S".data)) (some [⟨.text, ( "S".data)⟩])
    none (some [c6note]) none

def c6divider : IntentBlock :=
  .mk 1 .divider [] (some []) (some []) none none none

def c6sec3 : IntentBlock :=
  .mk 0 .section_ ( "S".data) (some ( "S".data)) (some [⟨.text, ( "S".data)⟩])
    none (some []) none

def c3table : IntentBlock :=
  .mk 3 .table ( "A | B".data) none none none none
    (some ⟨some [ "A".data, "B".data],
      [[ "1".data, "2".data], [ "3".data, "4".data]]⟩)

def c7task : IntentBlock :=
  .mk 0 .task ( "T".data) (some ( "T".data)) (some [⟨.text, ( "T".data)⟩])
    none none none

def c7item : IntentBlock :=
  .mk 1 .listItem ( "T".data) (some ( "T".data)) (some [⟨.text, ( "T".data)⟩])
    none (some [c7task]) none

/-- The children invariant (as amended): every block in the subtree with a
non-empty `children` sequence is a section, a sub, or a list-item (the
list-item case arising from the embedded keyword shorthand `- task: …`). -/
def okBlock (b : IntentBlock) : Prop :=
  ∀ c, InTree c b → c.children.getD [] ≠ [] →
    c.type = .section_ ∨ c.type = .sub ∨ c.type = .listItem

/-- Parser-state invariant for the children-kind claim: every accumulated
block satisfies `okBlock`, and the open section (if any) is of section
kind. -/
def stOK (st : ParseSt) : Prop :=
  (∀ b ∈ st.pre, okBlock b) ∧
  (∀ b, st.cur = some b → okBlock b ∧ (b.type = .section_ ∨ b.type = .sub)) ∧
  (∀ b ∈ st.post, okBlock b)

/-- In parser.ts every block id is a fresh `uuidv4()` draw; the embedding
numbers the calls 0, 1, 2, … in call order (the `id` field).  A concrete
run's random draws are modelled as a stream `gen : Nat → Nat` of opaque id
values indexed by call order; since the parser never reads an id back, a
run with stream `gen` is the counter-indexed parse with every id mapped
through `gen`. -/
def mapBlockIds (gen : Nat → Nat) : IntentBlock → IntentBlock
  | .mk i t c oc inl pr ch tb =>
      .mk (gen i) t c oc inl pr
        (match ch with
         | none => none
         | some cs => some (cs.attach.map (fun x => mapBlockIds gen x.1)))
        tb
termination_by b => sizeOf b
decreasing_by
  simp_wf
  have := List.sizeOf_lt_of_mem x.2
  omega

def mapDocIds (gen : Nat → Nat) (d : IntentDocument) : IntentDocument :=
  { d with blocks := d.blocks.map (mapBlockIds gen) }

/-- One run of `parseIntentText` with the uuid source `gen`. -/
def parseIntentTextWith (gen : Nat → Nat) (s : List Char) : IntentDocument :=
  mapDocIds gen (parseIntentText s)

/-- Forget all block ids (map them to 0). -/
def eraseIds : IntentDocument → IntentDocument := mapDocIds (fun _ => 0)

/-- Number of UNTERMINATED_CODE_BLOCK diagnostics in a list. -/
def countUnterm (ds : List Diagnostic) : Nat :=
  (ds.filter (fun d => d.code = .UNTERMINATED_CODE_BLOCK)).length

/-! ### Supporting lemmas -/

theorem countUnterm_append (a b : List Diagnostic) :
    countUnterm (a ++ b) = countUnterm a + countUnterm b := by
  simp [countUnterm, List.filter_append]

theorem countUnterm_procSegment (n : Nat)
    (acc : List Char × List (List Char × List Char) × List Diagnostic)
    (seg : List Char) :
    countUnterm (procSegment n acc seg).2.2 = countUnterm acc.2.2 := by
  rcases h : propSegmentMatch seg with _ | ⟨k, v⟩ <;>
    simp [procSegment, h, countUnterm_append, countUnterm, mkDiag]
  split <;> simp [countUnterm_append, countUnterm, mkDiag]

theorem countUnterm_foldSegments (n : Nat) :
    ∀ (segs : List (List Char)) acc,
      countUnterm ((segs.foldl (procSegment n) acc)).2.2 = countUnterm acc.2.2 := by
  intro segs
  induction segs with
  | nil => intro acc; rfl
  | cons s ss ih => intro acc; rw [List.foldl_cons, ih, countUnterm_procSegment]

theorem countUnterm_keywordContentProps (n : Nat) (kw rest : List Char) :
    countUnterm (keywordContentProps n kw rest).2.2 = 0 := by
  unfold keywordContentProps
  split
  · rfl
  · rw [countUnterm_foldSegments]; rfl

theorem countUnterm_parseKeywordLine (c n : Nat) (t k r : List Char) :
    countUnterm (parseKeywordLine c n t k r).diags = 0 := by
  simp only [parseKeywordLine]
  split
  · split <;> simp [countUnterm, mkDiag]
  · split <;> simp [countUnterm_keywordContentProps]

theorem countUnterm_listItemFrom (r : LineResult) (p : List Char) :
    countUnterm (listItemFrom r p).diags = countUnterm r.diags := by
  obtain ⟨b, ds, cnt⟩ := r
  cases b with
  | none => rfl
  | some emb =>
      by_cases hc : emb.type ≠ BlockType.listItem ∧ emb.type ≠ BlockType.stepItem
      · simp [listItemFrom, hc]
      · simp [listItemFrom, hc]

theorem countUnterm_parseLineF :
    ∀ fuel c n l, countUnterm (parseLineF fuel c n l).diags = 0 := by
  intro fuel
  induction fuel with
  | zero => intro c n l; rfl
  | succ f ih =>
    intro c n l
    simp only [parseLineF]
    split
    · rfl
    · split
      · apply countUnterm_parseKeywordLine
      · split
        · rw [countUnterm_listItemFrom]; apply ih
        · split
          · rfl
          · rfl

theorem pushPlain_diags (s : ParseSt) (b : IntentBlock) :
    (pushPlain s b).diags = s.diags := by
  obtain ⟨pre, cur, post, diags, cc, cco, csl, pend, cnt⟩ := s
  cases cur with
  | none => rfl
  | some c => by_cases h : c.children.isSome <;> simp [pushPlain, pushTop, h]

theorem pushPlain_codeCapture (s : ParseSt) (b : IntentBlock) :
    (pushPlain s b).codeCapture = s.codeCapture := by
  obtain ⟨pre, cur, post, diags, cc, cco, csl, pend, cnt⟩ := s
  cases cur with
  | none => rfl
  | some c => by_cases h : c.children.isSome <;> simp [pushPlain, pushTop, h]

theorem countUnterm_flush (st : ParseSt) :
    countUnterm (flushPendingTable st).diags = countUnterm st.diags := by
  rcases hp : st.pending with _ | ⟨hd, rows, oh, hl⟩
  · simp [flushPendingTable, hp]
  · cases hd with
    | none => simp [flushPendingTable, hp, pushPlain_diags]
    | some hs =>
        by_cases hcond : ¬ hs = [] ∧ rows = []
        · simp [flushPendingTable, hp, hcond, pushPlain_diags, countUnterm_append,
            countUnterm, mkDiag]
        · simp [flushPendingTable, hp, hcond, pushPlain_diags]

theorem flush_codeCapture (st : ParseSt) :
    (flushPendingTable st).codeCapture = st.codeCapture := by
  rcases hp : st.pending with _ | ⟨hd, rows, oh, hl⟩
  · simp [flushPendingTable, hp]
  · cases hd with
    | none => simp [flushPendingTable, hp, pushPlain_codeCapture]
    | some hs =>
        by_cases hcond : ¬ hs = [] ∧ rows = []
        · simp [flushPendingTable, hp, hcond, pushPlain_codeCapture]
        · simp [flushPendingTable, hp, hcond, pushPlain_codeCapture]

theorem countUnterm_handleClassified (st : ParseSt) (n : Nat) (b : IntentBlock) :
    countUnterm (handleClassified st n b).diags = countUnterm st.diags := by
  by_cases hh : b.type = BlockType.headers
  · simp [handleClassified, hh, countUnterm_flush]
  · by_cases hr : b.type = BlockType.row
    · rcases hp : st.pending with _ | pt
      · simp only [handleClassified]
        simp [hh, hr, hp]
        rw [countUnterm_flush]
        simp [countUnterm_append, countUnterm, mkDiag]
      · simp [handleClassified, hh, hr, hp]
    · by_cases hsec : b.type = BlockType.section_ ∨ b.type = BlockType.sub
      · simp [handleClassified, hh, hr, hsec]
      · cases hcur : st.cur with
        | some c =>
            by_cases hc : containable b.type
            · simp [handleClassified, hh, hr, hsec, hcur, hc]
            · by_cases hts : b.type = BlockType.title ∨ b.type = BlockType.summary
              · simp [handleClassified, hh, hr, hsec, hcur, hc, hts, pushTop]
              · simp [handleClassified, hh, hr, hsec, hcur, hc, hts]
        | none =>
            by_cases hts : b.type = BlockType.title ∨ b.type = BlockType.summary
            · simp [handleClassified, hh, hr, hsec, hcur, hts, pushTop]
            · simp [handleClassified, hh, hr, hsec, hcur, hts]

theorem countUnterm_parseLine (c n : Nat) (l : List Char) :
    countUnterm (parseLine c n l).diags = 0 :=
  countUnterm_parseLineF l.length c n l

theorem countUnterm_preFlush (st : ParseSt) (t : List Char) :
    countUnterm (preFlush st t).diags = countUnterm st.diags := by
  unfold preFlush
  split
  · exact countUnterm_flush st
  · rfl

theorem countUnterm_stepLineCore (st : ParseSt) (n : Nat) (line t : List Char) :
    countUnterm (stepLineCore st n line t).diags = countUnterm st.diags := by
  by_cases hcc : st.codeCapture
  · by_cases hend : jsLower t = ( "end:".data)
    · simp [stepLineCore, hcc, hend, pushPlain_diags]
    · simp [stepLineCore, hcc, hend]
  · by_cases hend : jsLower t = ( "end:".data)
    · simp [stepLineCore, hcc, hend, countUnterm_append, countUnterm, mkDiag]
    · rcases hcm : codeLineMatch t with _ | rest
      · rcases hb : (parseLine st.counter n line).block with _ | b
        · simp only [stepLineCore]
          simp [hcc, hend, hcm, hb]
          rw [countUnterm_append, countUnterm_parseLine]
          omega
        · simp only [stepLineCore]
          simp [hcc, hend, hcm, hb]
          rw [countUnterm_handleClassified, countUnterm_append, countUnterm_parseLine]
          omega
      · by_cases hrest : rest = []
        · simp [stepLineCore, hcc, hend, hcm, hrest]
        · simp [stepLineCore, hcc, hend, hcm, hrest, pushPlain_diags]

theorem countUnterm_stepLine (st : ParseSt) (n : Nat) (line : List Char) :
    countUnterm (stepLine st n line).diags = countUnterm st.diags := by
  unfold stepLine
  rw [countUnterm_stepLineCore, countUnterm_preFlush]

theorem flush_of_pending_none (st : ParseSt) (h : st.pending = none) :
    flushPendingTable st = st := by
  simp [flushPendingTable, h]

theorem finalize_diags_capture (L : Nat) (st : ParseSt) (h : st.codeCapture = true) :
    (finalizeSt L st).diagnostics =
      some ((flushPendingTable st).diags ++
        [mkDiag .error .UNTERMINATED_CODE_BLOCK msgUnterminated
          (if (flushPendingTable st).codeStartLine = 0 then L
           else (flushPendingTable st).codeStartLine)]) := by
  have hcc : (flushPendingTable st).codeCapture = true := by
    rw [flush_codeCapture]; exact h
  simp only [finalizeSt]
  simp [hcc, pushPlain_diags]

theorem countUnterm_runLines :
    ∀ (lines : List (List Char)) (st : ParseSt) (n : Nat),
      countUnterm (runLines st n lines).diags = countUnterm st.diags := by
  intro lines
  induction lines with
  | nil => intro st n; rfl
  | cons l ls ih => intro st n; rw [runLines, ih, countUnterm_stepLine]

/-- The derived document direction is by definition computed from the
top-level block list only. -/
theorem rtl_language_def (s : List Char) :
    (parseIntentText s).metadata.language =
      (if (parseIntentText s).blocks.any (fun b => detectArabic b.content)
        then ( "rtl".data) else ( "ltr".data)) := rfl

theorem joinValues_nil : joinValues [] = [] := rfl

theorem joinValues_cons (n : InlineNode) (ns : List InlineNode) :
    joinValues (n :: ns) = n.value ++ joinValues ns := by
  simp [joinValues]

theorem parseInlineAux_join :
    ∀ fuel t, (parseInlineAux fuel t).1 = joinValues (parseInlineAux fuel t).2 := by
  intro fuel t
  induction fuel, t using parseInlineAux.induct <;>
    simp_all [parseInlineAux, joinValues_cons, joinValues_nil]

theorem jsTrim_length_le (l : List Char) : (jsTrim l).length ≤ l.length := by
  unfold jsTrim
  calc ((l.dropWhile isJsWs).reverse.dropWhile isJsWs).reverse.length
      = ((l.dropWhile isJsWs).reverse.dropWhile isJsWs).length :=
        List.length_reverse _
    _ ≤ (l.dropWhile isJsWs).reverse.length :=
        (List.dropWhile_sublist isJsWs).length_le
    _ = (l.dropWhile isJsWs).length := List.length_reverse _
    _ ≤ l.length := (List.dropWhile_sublist isJsWs).length_le

theorem splitAtChar_shrinks (d : Char) (l : List Char) :
    ∀ v rest, splitAtChar d l = some (v, rest) → rest.length < l.length := by
  induction l with
  | nil => intro v rest h; simp [splitAtChar] at h
  | cons c cs ih =>
    intro v rest h
    rw [splitAtChar] at h
    by_cases hc : c = d
    · rw [if_pos hc] at h
      obtain ⟨h₁, h₂⟩ := Prod.mk.injEq .. ▸ Option.some.inj h
      subst h₂
      exact Nat.lt_succ_self _
    · rw [if_neg hc, Option.map_eq_some'] at h
      obtain ⟨⟨v', rest'⟩, hsp, heq⟩ := h
      have hlt := ih v' rest' hsp
      cases heq
      simp only [List.length_cons]
      omega

theorem inTree_cases {c p : IntentBlock} (h : InTree c p) :
    c = p ∨ ∃ q ∈ p.children.getD [], InTree c q := by
  cases h with
  | here => exact Or.inl rfl
  | via hc h₂ => exact Or.inr ⟨_, hc, h₂⟩

theorem okBlock_of_no_children (b : IntentBlock) (h : b.children.getD [] = []) :
    okBlock b := by
  intro c hc hne
  rcases inTree_cases hc with rfl | ⟨q, hq, _⟩
  · exact absurd h hne
  · rw [h] at hq; cases hq

theorem okBlock_listItem_wrap (i : Nat) (cc : List Char)
    (oc : Option (List Char)) (inl : Option (List InlineNode))
    (pr : Option (List (List Char × List Char))) (emb : IntentBlock)
    (h : okBlock emb) :
    okBlock (.mk i .listItem cc oc inl pr (some [emb]) none) := by
  intro c hc hne
  rcases inTree_cases hc with rfl | ⟨q, hq, hin⟩
  · right; right; rfl
  · simp [IntentBlock.children] at hq
    subst hq
    exact h c hin hne

theorem okBlock_addChild (p b : IntentBlock)
    (ht : p.type = .section_ ∨ p.type = .sub)
    (hp : okBlock p) (hb : okBlock b) : okBlock (addChild p b) := by
  obtain ⟨i, t, c₀, oc, inl, pr, ch, tb⟩ := p
  intro c hc hne
  rcases inTree_cases hc with rfl | ⟨q, hq, hin⟩
  · rcases ht with h | h <;> simp [IntentBlock.type] at h <;>
      simp [addChild, IntentBlock.type, h]
  · simp [addChild, IntentBlock.children] at hq
    rcases hq with hq | rfl
    · refine hp c (InTree.via ?_ hin) hne
      simpa [IntentBlock.children] using hq
    · exact hb c hin hne

theorem okBlock_setChildrenEmpty (b : IntentBlock) :
    okBlock (setChildrenEmpty b) := by
  obtain ⟨i, t, c₀, oc, inl, pr, ch, tb⟩ := b
  exact okBlock_of_no_children _ (by simp [setChildrenEmpty, IntentBlock.children])

theorem parseKeywordLine_ok (c n : Nat) (t k r : List Char) (b : IntentBlock)
    (h : (parseKeywordLine c n t k r).block = some b) : okBlock b := by
  simp only [parseKeywordLine] at h
  split at h <;> split at h <;>
  · obtain rfl := Option.some.inj h
    exact okBlock_of_no_children _ (by simp [IntentBlock.children])

theorem plainListItem_ok (c : Nat) (payload : List Char) (b : IntentBlock)
    (h : plainListItem c payload = some b) : okBlock b := by
  obtain rfl := Option.some.inj h
  exact okBlock_of_no_children _ (by simp [IntentBlock.children])

theorem listItemFrom_ok (r : LineResult) (payload : List Char)
    (hr : ∀ b, r.block = some b → okBlock b) :
    ∀ b, (listItemFrom r payload).block = some b → okBlock b := by
  intro b h
  obtain ⟨rb, ds, cnt⟩ := r
  cases rb with
  | none => exact plainListItem_ok _ _ _ h
  | some emb =>
      by_cases hc : emb.type ≠ BlockType.listItem ∧ emb.type ≠ BlockType.stepItem
      · simp only [listItemFrom] at h
        rw [if_pos hc] at h
        obtain ⟨ei, et, ec, eoc, einl, epr, ech, etb⟩ := emb
        obtain rfl := Option.some.inj h
        exact okBlock_listItem_wrap _ _ _ _ _ _ (hr _ rfl)
      · simp only [listItemFrom] at h
        rw [if_neg hc] at h
        exact plainListItem_ok _ _ _ h

theorem stepItemFrom_ok (c : Nat) (c₀ : List Char) (b : IntentBlock)
    (h : (stepItemFrom c c₀).block = some b) : okBlock b := by
  obtain rfl := Option.some.inj h
  exact okBlock_of_no_children _ (by simp [IntentBlock.children])

theorem bodyTextFrom_ok (c : Nat) (t : List Char) (b : IntentBlock)
    (h : (bodyTextFrom c t).block = some b) : okBlock b := by
  obtain rfl := Option.some.inj h
  exact okBlock_of_no_children _ (by simp [IntentBlock.children])

theorem parseLineF_ok :
    ∀ fuel c n l b, (parseLineF fuel c n l).block = some b → okBlock b := by
  intro fuel
  induction fuel with
  | zero => intro c n l b h; simp [parseLineF] at h
  | succ f ih =>
    intro c n l b h
    simp only [parseLineF] at h
    split at h
    · simp at h
    · split at h
      · exact parseKeywordLine_ok _ _ _ _ _ _ h
      · split at h
        · exact listItemFrom_ok _ _ (fun b' h' => ih _ _ _ _ h') _ h
        · split at h
          · exact stepItemFrom_ok _ _ _ h
          · exact bodyTextFrom_ok _ _ _ h

theorem parseLine_ok (c n : Nat) (l : List Char) (b : IntentBlock)
    (h : (parseLine c n l).block = some b) : okBlock b :=
  parseLineF_ok l.length c n l b h

theorem addChild_type (p b : IntentBlock) : (addChild p b).type = p.type := by
  obtain ⟨i, t, c₀, oc, inl, pr, ch, tb⟩ := p; rfl

theorem setChildrenEmpty_type (b : IntentBlock) :
    (setChildrenEmpty b).type = b.type := by
  obtain ⟨i, t, c₀, oc, inl, pr, ch, tb⟩ := b; rfl

theorem stOK_of_parts (st st' : ParseSt) (hpre : st'.pre = st.pre)
    (hcur : st'.cur = st.cur) (hpost : st'.post = st.post) (h : stOK st) :
    stOK st' := by
  refine ⟨?_, ?_, ?_⟩
  · rw [hpre]; exact h.1
  · intro b hb; rw [hcur] at hb; exact h.2.1 b hb
  · rw [hpost]; exact h.2.2

theorem stOK_pushTop (st : ParseSt) (b : IntentBlock) (h : stOK st)
    (hb : okBlock b) : stOK (pushTop st b) := by
  refine ⟨h.1, h.2.1, ?_⟩
  intro x hx
  simp only [pushTop] at hx
  rcases List.mem_append.mp hx with hx | hx
  · exact h.2.2 x hx
  · rw [List.mem_singleton.mp hx]; exact hb

theorem stOK_pushPlain (st : ParseSt) (b : IntentBlock) (h : stOK st)
    (hb : okBlock b) : stOK (pushPlain st b) := by
  rcases hcur : st.cur with _ | c
  · simp only [pushPlain, hcur]
    exact stOK_pushTop st b h hb
  · simp only [pushPlain, hcur]
    by_cases hch : c.children.isSome
    · rw [if_pos hch]
      have hcok := h.2.1 c hcur
      refine ⟨h.1, ?_, h.2.2⟩
      intro x hx
      obtain rfl := (Option.some.inj hx).symm
      refine ⟨okBlock_addChild c b hcok.2 hcok.1 hb, ?_⟩
      rw [addChild_type]; exact hcok.2
    · rw [if_neg hch]
      exact stOK_pushTop st b h hb

theorem stOK_flush (st : ParseSt) (h : stOK st) : stOK (flushPendingTable st) := by
  rcases hp : st.pending with _ | ⟨hd, rows, oh, hl⟩
  · rw [flush_of_pending_none st hp]; exact h
  · have htb : okBlock (IntentBlock.mk st.counter BlockType.table (oh.getD [])
        none none none none (some ⟨hd, rows⟩)) :=
      okBlock_of_no_children _ (by simp [IntentBlock.children])
    cases hd with
    | none =>
        simp only [flushPendingTable, hp]
        exact stOK_pushPlain _ _ (stOK_of_parts st _ rfl rfl rfl h) htb
    | some hs =>
        by_cases hcond : ¬ hs = [] ∧ rows = []
        · simp only [flushPendingTable, hp]
          rw [if_pos hcond]
          exact stOK_pushPlain _ _ (stOK_of_parts st _ rfl rfl rfl h) htb
        · simp only [flushPendingTable, hp]
          rw [if_neg hcond]
          exact stOK_pushPlain _ _ (stOK_of_parts st _ rfl rfl rfl h) htb

theorem stBlocks_ok (st : ParseSt) (h : stOK st) :
    ∀ x ∈ stBlocks st, okBlock x := by
  intro x hx
  rcases hcur : st.cur with _ | c <;> simp [stBlocks, hcur] at hx
  · rcases hx with hx | hx
    · exact h.1 x hx
    · exact h.2.2 x hx
  · rcases hx with hx | rfl | hx
    · exact h.1 x hx
    · exact (h.2.1 x hcur).1
    · exact h.2.2 x hx

theorem stOK_handleClassified (st : ParseSt) (n : Nat) (b : IntentBlock)
    (h : stOK st) (hb : okBlock b) : stOK (handleClassified st n b) := by
  by_cases hh : b.type = BlockType.headers
  · simp only [handleClassified]
    rw [if_pos hh]
    exact stOK_of_parts (flushPendingTable st) _ rfl rfl rfl (stOK_flush st h)
  · by_cases hr : b.type = BlockType.row
    · simp only [handleClassified]
      rw [if_neg hh, if_pos hr]
      rcases hp : st.pending with _ | pt
      · simp only [hp]
        exact stOK_flush _ (stOK_of_parts st _ rfl rfl rfl h)
      · simp only [hp]
        exact stOK_of_parts st _ rfl rfl rfl h
    · by_cases hsec : b.type = BlockType.section_ ∨ b.type = BlockType.sub
      · simp only [handleClassified]
        rw [if_neg hh, if_neg hr, if_pos hsec]
        refine ⟨?_, ?_, ?_⟩
        · intro x hx
          exact stBlocks_ok st h x hx
        · intro x hx
          obtain rfl := (Option.some.inj hx).symm
          refine ⟨okBlock_setChildrenEmpty b, ?_⟩
          rw [setChildrenEmpty_type]; exact hsec
        · intro x hx; simp at hx
      · simp only [handleClassified]
        rw [if_neg hh, if_neg hr, if_neg hsec]
        rcases hcur : st.cur with _ | c <;> dsimp only
        · by_cases hts : b.type = BlockType.title ∨ b.type = BlockType.summary
          · rw [if_pos hts]; exact stOK_pushTop st b h hb
          · rw [if_neg hts]
            refine ⟨?_, ?_, ?_⟩
            · intro x hx
              simp only [] at hx
              rcases List.mem_append.mp hx with hx | hx
              · exact stBlocks_ok st h x hx
              · rw [List.mem_singleton.mp hx]; exact hb
            · intro x hx; simp at hx
            · intro x hx; simp at hx
        · by_cases hc : containable b.type
          · rw [if_pos hc]
            have hcok := h.2.1 c hcur
            refine ⟨h.1, ?_, h.2.2⟩
            intro x hx
            obtain rfl := (Option.some.inj hx).symm
            refine ⟨okBlock_addChild c b hcok.2 hcok.1 hb, ?_⟩
            rw [addChild_type]; exact hcok.2
          · by_cases hts : b.type = BlockType.title ∨ b.type = BlockType.summary
            · rw [if_neg hc, if_pos hts]; exact stOK_pushTop st b h hb
            · rw [if_neg hc, if_neg hts]
              refine ⟨?_, ?_, ?_⟩
              · intro x hx
                simp only [] at hx
                rcases List.mem_append.mp hx with hx | hx
                · exact stBlocks_ok st h x hx
                · rw [List.mem_singleton.mp hx]; exact hb
              · intro x hx; simp at hx
              · intro x hx; simp at hx

theorem stOK_preFlush (st : ParseSt) (t : List Char) (h : stOK st) :
    stOK (preFlush st t) := by
  unfold preFlush
  split
  · exact stOK_flush st h
  · exact h

theorem stOK_stepLineCore (st : ParseSt) (n : Nat) (line t : List Char)
    (h : stOK st) : stOK (stepLineCore st n line t) := by
  by_cases hcc : st.codeCapture
  · by_cases hend : jsLower t = ( "end:".data)
    · simp only [stepLineCore]
      rw [if_pos hcc, if_pos hend]
      exact stOK_pushPlain _ _ (stOK_of_parts st _ rfl rfl rfl h)
        (okBlock_of_no_children _ (by simp [IntentBlock.children]))
    · simp only [stepLineCore]
      rw [if_pos hcc, if_neg hend]
      exact stOK_of_parts st _ rfl rfl rfl h
  · by_cases hend : jsLower t = ( "end:".data)
    · simp only [stepLineCore]
      rw [if_neg hcc, if_pos hend]
      exact stOK_of_parts st _ rfl rfl rfl h
    · rcases hcm : codeLineMatch t with _ | rest
      · simp only [stepLineCore]
        rw [if_neg hcc, if_neg hend]
        simp only [hcm]
        rcases hblk : (parseLine st.counter n line).block with _ | b
        · simp only [hblk]
          exact stOK_of_parts st _ rfl rfl rfl h
        · simp only [hblk]
          exact stOK_handleClassified _ n b (stOK_of_parts st _ rfl rfl rfl h)
            (parseLine_ok _ _ _ _ hblk)
      · by_cases hrest : rest = []
        · simp only [stepLineCore]
          rw [if_neg hcc, if_neg hend]
          simp only [hcm]
          rw [if_pos hrest]
          exact stOK_of_parts st _ rfl rfl rfl h
        · simp only [stepLineCore]
          rw [if_neg hcc, if_neg hend]
          simp only [hcm]
          rw [if_neg hrest]
          exact stOK_pushPlain _ _ (stOK_of_parts st _ rfl rfl rfl h)
            (okBlock_of_no_children _ (by simp [IntentBlock.children]))

theorem stOK_runLines :
    ∀ (lines : List (List Char)) (st : ParseSt) (n : Nat),
      stOK st → stOK (runLines st n lines) := by
  intro lines
  induction lines with
  | nil => intro st n h; exact h
  | cons l ls ih =>
      intro st n h
      rw [runLines]
      exact ih _ _ (by
        unfold stepLine
        exact stOK_stepLineCore _ _ _ _ (stOK_preFlush _ _ h))

theorem parse_all_ok (s : List Char) :
    ∀ p ∈ (parseIntentText s).blocks, okBlock p := by
  have h₀ : stOK initSt :=
    ⟨fun b hb => by simp [initSt] at hb, fun b hb => by simp [initSt] at hb,
     fun b hb => by simp [initSt] at hb⟩
  have hfin := stOK_runLines (splitLines s) initSt 1 h₀
  have hF := stOK_flush _ hfin
  intro p hp
  have hdoc : parseIntentText s =
      finalizeSt (splitLines s).length (runLines initSt 1 (splitLines s)) := rfl
  rw [hdoc] at hp
  simp only [finalizeSt] at hp
  by_cases hcc : (flushPendingTable (runLines initSt 1 (splitLines s))).codeCapture
  · rw [if_pos hcc] at hp
    refine stBlocks_ok _ ?_ p hp
    exact stOK_pushPlain _ _ (stOK_of_parts _ _ rfl rfl rfl hF)
      (okBlock_of_no_children _ (by simp [IntentBlock.children]))
  · rw [if_neg hcc] at hp
    exact stBlocks_ok _ hF p hp

theorem mapBlockIds_erase (g : Nat → Nat) :
    ∀ (n : Nat) (b : IntentBlock), sizeOf b ≤ n →
      mapBlockIds (fun _ => 0) (mapBlockIds g b) = mapBlockIds (fun _ => 0) b := by
  intro n
  induction n with
  | zero =>
      intro b hb
      obtain ⟨i, t, c, oc, inl, pr, ch, tb⟩ := b
      simp at hb
  | succ n ih =>
      intro b hb
      obtain ⟨i, t, c, oc, inl, pr, ch, tb⟩ := b
      cases ch with
      | none => simp [mapBlockIds]
      | some cs =>
          simp only [mapBlockIds, List.attach_map_val]
          congr 1
          rw [List.map_map]
          refine congrArg some ?_
          apply List.map_congr_left
          intro x hx
          have hs : sizeOf x < sizeOf cs := List.sizeOf_lt_of_mem hx
          have hb' : sizeOf (IntentBlock.mk i t c oc inl pr (some cs) tb) ≤ n + 1 := hb
          simp at hb'
          exact ih x (by omega)

theorem mapDoc_erase (g : Nat → Nat) (d : IntentDocument) :
    eraseIds (mapDocIds g d) = eraseIds d := by
  have hb : (d.blocks.map (mapBlockIds g)).map (mapBlockIds (fun _ => 0)) =
      d.blocks.map (mapBlockIds (fun _ => 0)) := by
    rw [List.map_map]
    exact List.map_congr_left (fun b _ => mapBlockIds_erase g (sizeOf b) b le_rfl)
  simp [eraseIds, mapDocIds, hb]

/-! ### Claims -/

/-- C1: for every input string (no extensions registered), `parseIntentText`
terminates and returns a Document; empty input gives zero blocks and no
diagnostics.  Totality of the translated parser is enforced by Lean; the
two quantified conjuncts record the measures behind the recursion in the
source: the list-item payload re-parsed by `parseLine` is strictly shorter
than the line, and the inline tokenizer's delimiter scan strictly advances
past every consumed delimiter. -/
theorem claim1_parse_terminates :
    (∀ s : List Char, ∃ d : IntentDocument, parseIntentText s = d) ∧
    parseIntentText [] = ⟨[], ⟨none, none, ( "ltr".data)⟩, none⟩ ∧
    (∀ line : List Char,
        (jsTrim line).take 2 = ( "- ".data) ∨ (jsTrim line).take 2 = ( "* ".data) →
        ((jsTrim line).drop 2).length < line.length) ∧
    (∀ (d : Char) (l v rest : List Char),
        splitAtChar d l = some (v, rest) → rest.length < l.length) := by
  refine ⟨fun s => ⟨_, rfl⟩, rfl, ?_, fun d l v rest h => splitAtChar_shrinks d l v rest h⟩
  intro line h
  have h₁ : (jsTrim line).length ≤ line.length := jsTrim_length_le line
  have h₂ : 2 ≤ (jsTrim line).length := by
    rcases h with h | h <;>
    · have := congrArg List.length h
      simp [List.length_take] at this
      omega
  simp [List.length_drop]
  omega

/-- C1 witness: the payload-shrinking and scan-advance conjuncts applied at
concrete inputs. -/
theorem claim1_witness :
    ((jsTrim ( "- ab".data)).drop 2).length < ( "- ab".data).length ∧
    ( "bc".data).length < ( "abc".data).length :=
  ⟨claim1_parse_terminates.2.2.1 ( "- ab".data) (Or.inl (by decide)),
   claim1_parse_terminates.2.2.2 'a' ( "abc".data) [] ( "bc".data) (by decide)⟩

/-- C2: for every input text, the `content` returned by the default inline
tokenizer `parseInlineNodes` is exactly the concatenation of the `value`
fields of the returned runs, in order. -/
theorem claim2_inline_roundtrip (text : List Char) :
    (parseInlineNodes text).1 = joinValues (parseInlineNodes text).2 :=
  parseInlineAux_join text.length text

/-- C5: parsing `note: A \| B | owner: John` yields a note block with
content `A | B` and properties `{owner: John}`: the escaped pipe does not
split, the unescaped ` | ` does, and the property value is
escape-resolved. -/
theorem claim5_escaped_pipe :
    parseIntentText ( "note: A \\| B | owner: John".data) =
      ⟨[.mk 0 .note ( "A | B".data) (some ( "A | B".data))
          (some [⟨.text, ( "A | B".data)⟩])
          (some [( "owner".data, "John".data)]) none none],
       ⟨none, none, ( "ltr".data)⟩, none⟩ := rfl

/-- C9: the `code:` line match of the main loop is case-SENSITIVE
(`/^code:\s*(.*)$/` has no `i` flag), so `Code:` with empty remainder does
not enter CodeCapture: it falls through to `parseLine` and emits an
immediate empty code block, the following line becomes body text, and the
closing `end:` is flagged UNEXPECTED_END — unlike lowercase `code:`, which
captures the following lines into one code block.  This contradicts the
case-insensitivity stated by the claim, the repository's own docs/SPEC.md
(`Title:` = `title:`), and the parser's other keyword checks. -/
theorem claim9_code_case_sensitive :
    (parseIntentText ( "Code:\nabc\nend:".data)).blocks.map IntentBlock.type =
        [.code, .bodyText] ∧
    (parseIntentText ( "Code:\nabc\nend:".data)).blocks.map IntentBlock.content =
        [[], "abc".data] ∧
    ((parseIntentText ( "Code:\nabc\nend:".data)).diagnostics.getD []).map Diagnostic.code =
        [.UNEXPECTED_END] ∧
    (parseIntentText ( "code:\nabc\nend:".data)).blocks.map IntentBlock.type =
        [.code] ∧
    (parseIntentText ( "code:\nabc\nend:".data)).blocks.map IntentBlock.content =
        [ "abc".data] ∧
    (parseIntentText ( "code:\nabc\nend:".data)).diagnostics = none :=
  ⟨rfl, rfl, rfl, rfl, rfl, rfl⟩

/-- C8 counterexample: in `section: S` + `task: مرحبا` the only Arabic text
sits in a nested child block, and the parser derives direction `ltr`, not
`rtl` — `hasArabic` scans only top-level block contents. -/
theorem claim8_counterexample :
    ¬ (∀ (s : List Char) (b : IntentBlock), InDoc b (parseIntentText s) →
        detectArabic b.content = true →
        (parseIntentText s).metadata.language = ( "rtl".data)) := by
  intro h
  have hblocks : (parseIntentText c8input).blocks = [c8sec] := rfl
  have hmem : c8sec ∈ (parseIntentText c8input).blocks := by
    rw [hblocks]; exact List.mem_singleton.mpr rfl
  have hchild : c8task ∈ c8sec.children.getD [] := List.mem_singleton.mpr rfl
  have htree : InTree c8task c8sec := InTree.via hchild (InTree.here c8task)
  have hrtl := h c8input c8task ⟨c8sec, hmem, htree⟩ (by decide)
  have hl : (parseIntentText c8input).metadata.language = ( "ltr".data) := rfl
  rw [hl] at hrtl
  exact absurd hrtl (by decide)

/-- C8 (amended): `metadata.direction` is `rtl` iff some TOP-LEVEL block's
content contains a character in the Arabic Unicode range; Arabic text that
occurs only inside nested child blocks does not set `rtl`. -/
theorem claim8_rtl_top_level_only (s : List Char) :
    (parseIntentText s).metadata.language = ( "rtl".data) ↔
      (parseIntentText s).blocks.any (fun b => detectArabic b.content) = true := by
  rw [rtl_language_def s]
  cases h : (parseIntentText s).blocks.any (fun b => detectArabic b.content) with
  | true => simp
  | false =>
      simp only [Bool.false_eq_true, iff_false, if_false]
      decide

/-- C6: section containment and scope reset: `section: S` + `task: T` gives
one top-level section block with one task child; a `title:` while a section
is open is appended at top level and leaves the section current (a
following `note:` still nests); a `divider:` clears the current section so
a following `note:` is top-level; and in general any classified block that
is not containable and not title/summary/section/sub (nor part of table
grouping) clears the current section. -/
theorem claim6_section_scope :
    (parseIntentText ( "section: S\ntask: T".data) =
        ⟨[c6sec1], ⟨none, none, ( "ltr".data)⟩, none⟩) ∧
    (parseIntentText ( "section: S\ntitle: X\nnote: N".data) =
        ⟨[c6sec2, c6title], ⟨some ( "X".data), none, ( "ltr".data)⟩, none⟩) ∧
    (parseIntentText ( "section: S\ndivider:\nnote: N".data) =
        ⟨[c6sec3, c6divider, c6note], ⟨none, none, ( "ltr".data)⟩, none⟩) ∧
    (∀ (st : ParseSt) (lineNo : Nat) (b : IntentBlock),
        containable b.type = false →
        b.type ≠ .title → b.type ≠ .summary →
        b.type ≠ .section_ → b.type ≠ .sub →
        b.type ≠ .headers → b.type ≠ .row →
        (handleClassified st lineNo b).cur = none) := by
  refine ⟨rfl, rfl, rfl, ?_⟩
  intro st n b hc ht hs hsec hsub hh hr
  cases hcur : st.cur <;>
    simp [handleClassified, hh, hr, hsec, hsub, ht, hs, hc, hcur]

/-- C6 witness: the scope-reset conjunct applied to a divider block while a
section is open. -/
theorem claim6_witness :
    (handleClassified ⟨[], some c6sec3, [], [], false, [], 0, none, 2⟩ 5 c6divider).cur
      = none :=
  claim6_section_scope.2.2.2 ⟨[], some c6sec3, [], [], false, [], 0, none, 2⟩ 5 c6divider
    (by decide) (by decide) (by decide) (by decide) (by decide) (by decide) (by decide)

/-- C3: `headers: A | B` + `row: 1 | 2` + `row: 3 | 4` yields exactly one
table block with headers `[A, B]` and rows `[[1, 2], [3, 4]]`; and whenever
a classified `row` block is handled with no pending table (and no open
section), the parser appends a single-row table block and a
ROW_WITHOUT_HEADERS warning. -/
theorem claim3_table_grouping :
    (parseIntentText ( "headers: A | B\nrow: 1 | 2\nrow: 3 | 4".data) =
        ⟨[c3table], ⟨none, none, ( "ltr".data)⟩, none⟩) ∧
    (∀ (st : ParseSt) (lineNo : Nat) (b : IntentBlock),
        st.pending = none → st.cur = none → b.type = .row →
        (handleClassified st lineNo b).diags =
            st.diags ++ [mkDiag .warning .ROW_WITHOUT_HEADERS msgRowNoHeaders lineNo] ∧
        (handleClassified st lineNo b).pending = none ∧
        stBlocks (handleClassified st lineNo b) =
            stBlocks st ++ [.mk st.counter .table [] none none none none
              (some ⟨none, [splitTableRow (origOr b)]⟩)]) := by
  refine ⟨rfl, ?_⟩
  intro st n b hpend hcur htype
  simp [handleClassified, htype, hpend, flushPendingTable, pushPlain, pushTop,
    hcur, stBlocks]

/-- C3 witness: the row-without-headers conjunct applied at a concrete
state and row block. -/
theorem claim3_witness :
    (handleClassified ⟨[], none, [], [], false, [], 0, none, 0⟩ 1
        (.mk 9 .row ( "1 | 2".data) (some ( "1 | 2".data)) none none none none)).diags =
      [mkDiag .warning .ROW_WITHOUT_HEADERS msgRowNoHeaders 1] ∧
    (handleClassified ⟨[], none, [], [], false, [], 0, none, 0⟩ 1
        (.mk 9 .row ( "1 | 2".data) (some ( "1 | 2".data)) none none none none)).pending
      = none ∧
    stBlocks (handleClassified ⟨[], none, [], [], false, [], 0, none, 0⟩ 1
        (.mk 9 .row ( "1 | 2".data) (some ( "1 | 2".data)) none none none none)) =
      [.mk 0 .table [] none none none none
        (some ⟨none, [[ "1".data, "2".data]]⟩)] := by
  have h := claim3_table_grouping.2 ⟨[], none, [], [], false, [], 0, none, 0⟩ 1
    (.mk 9 .row ( "1 | 2".data) (some ( "1 | 2".data)) none none none none)
    rfl rfl rfl
  exact ⟨h.1, h.2.1, h.2.2⟩

/-- C4: `code:` followed by `line one`, `line two`, `end:` yields exactly
one code block with text `line one\nline two`; and any parse that reaches
end of input still in CodeCapture emits the captured code block
(best effort) plus exactly one UNTERMINATED_CODE_BLOCK diagnostic of
severity error: the middle conjunct states what `finalizeSt` appends (from
a state with no pending table and no open section), the last that over the
whole run exactly one such diagnostic is present. -/
theorem claim4_code_capture :
    (parseIntentText ( "code:\nline one\nline two\nend:".data) =
        ⟨[.mk 0 .code ( "line one\nline two".data) none none none none none],
         ⟨none, none, ( "ltr".data)⟩, none⟩) ∧
    (∀ (totalLines : Nat) (st : ParseSt),
        st.codeCapture = true → st.pending = none → st.cur = none →
        (finalizeSt totalLines st).diagnostics =
            some (st.diags ++ [mkDiag .error .UNTERMINATED_CODE_BLOCK msgUnterminated
              (if st.codeStartLine = 0 then totalLines else st.codeStartLine)]) ∧
        (finalizeSt totalLines st).blocks =
            stBlocks st ++ [.mk st.counter .code
              (List.intercalate [ '\n' ] st.codeContent) none none none none none]) ∧
    (∀ s : List Char, (runLines initSt 1 (splitLines s)).codeCapture = true →
        countUnterm ((parseIntentText s).diagnostics.getD []) = 1) := by
  refine ⟨rfl, ?_, ?_⟩
  · intro totalLines st hcc hpend hcur
    have hfl : flushPendingTable st = st := flush_of_pending_none st hpend
    have hd := finalize_diags_capture totalLines st hcc
    rw [hfl] at hd
    refine ⟨hd, ?_⟩
    simp only [finalizeSt, hfl]
    simp [hcc, pushPlain, pushTop, hcur, stBlocks]
  · intro s hcap
    have h1 : countUnterm (runLines initSt 1 (splitLines s)).diags = 0 := by
      rw [countUnterm_runLines]; rfl
    have h2 := finalize_diags_capture (splitLines s).length
      (runLines initSt 1 (splitLines s)) hcap
    have hdoc : parseIntentText s =
        finalizeSt (splitLines s).length (runLines initSt 1 (splitLines s)) := rfl
    rw [hdoc, h2, Option.getD_some, countUnterm_append, countUnterm_flush, h1]
    rfl

/-- C4 witness: the finalize conjunct applied at a concrete capturing state
and the exactly-one conjunct applied to the unterminated input `code:`. -/
theorem claim4_witness :
    (finalizeSt 3 ⟨[], none, [], [], true, [ "x".data], 1, none, 0⟩).diagnostics =
        some [mkDiag .error .UNTERMINATED_CODE_BLOCK msgUnterminated 1] ∧
    (finalizeSt 3 ⟨[], none, [], [], true, [ "x".data], 1, none, 0⟩).blocks =
        [.mk 0 .code ( "x".data) none none none none none] ∧
    countUnterm ((parseIntentText ( "code:".data)).diagnostics.getD []) = 1 := by
  have h2 := claim4_code_capture.2.1 3 ⟨[], none, [], [], true, [ "x".data], 1, none, 0⟩
    rfl rfl rfl
  have h3 := claim4_code_capture.2.2 ( "code:".data) rfl
  exact ⟨h2.1, h2.2, h3⟩

/-- C7 counterexample: `- task: T` parses to a top-level LIST-ITEM block
whose `children` holds the embedded task block — a non-section-like block
with non-empty children, refuting the claim that only section/sub blocks
carry children. -/
theorem claim7_counterexample :
    ¬ (∀ (s : List Char) (b : IntentBlock), InDoc b (parseIntentText s) →
        b.children.getD [] ≠ [] →
        b.type = .section_ ∨ b.type = .sub) := by
  intro h
  have hb : (parseIntentText ( "- task: T".data)).blocks = [c7item] := rfl
  have hmem : c7item ∈ (parseIntentText ( "- task: T".data)).blocks := by
    rw [hb]; exact List.mem_singleton.mpr rfl
  have hkind := h ( "- task: T".data) c7item ⟨c7item, hmem, InTree.here c7item⟩
    (by simp [c7item, IntentBlock.children])
  rcases hkind with ht | ht <;> simp [c7item, IntentBlock.type] at ht

/-- C7 (amended): in every document returned by `parseIntentText` (no
extensions registered), every block at any depth with a non-empty
`children` sequence has kind section, sub, or list-item; the list-item case
arises exactly from the `- keyword: …` embedding, which stores the embedded
block as the single child of the list item. -/
theorem claim7_children_section_like (s : List Char) (b : IntentBlock)
    (h : InDoc b (parseIntentText s)) (hne : b.children.getD [] ≠ []) :
    b.type = .section_ ∨ b.type = .sub ∨ b.type = .listItem := by
  obtain ⟨p, hp, ht⟩ := h
  exact parse_all_ok s p hp b ht hne

/-- C7 witness: the amended invariant applied to the list-item block of
`- task: T`. -/
theorem claim7_witness :
    c7item.type = .section_ ∨ c7item.type = .sub ∨ c7item.type = .listItem := by
  apply claim7_children_section_like ( "- task: T".data) c7item
  · refine ⟨c7item, ?_, InTree.here c7item⟩
    have hb : (parseIntentText ( "- task: T".data)).blocks = [c7item] := rfl
    rw [hb]; exact List.mem_singleton.mpr rfl
  · simp [c7item, IntentBlock.children]

/-- C10 counterexample: two calls of the parser do NOT return equal
Documents including the identity/id fields, because each call draws fresh
random uuids — modelled as distinct id streams, the same input yields
Documents with different block ids. -/
theorem claim10_counterexample :
    ¬ (∀ (g₁ g₂ : Nat → Nat) (s : List Char),
        parseIntentTextWith g₁ s = parseIntentTextWith g₂ s) := by
  intro h
  have heq := h (fun _ => 1) (fun _ => 2) ( "note: x".data)
  have hblocks : (parseIntentText ( "note: x".data)).blocks =
      [.mk 0 .note ( "x".data) (some ( "x".data)) (some [⟨.text, ( "x".data)⟩])
        none none none] := rfl
  have h₁ := congrArg (fun d => d.blocks.map IntentBlock.id) heq
  simp only [parseIntentTextWith, mapDocIds, hblocks] at h₁
  simp [mapBlockIds, IntentBlock.id] at h₁

/-- C10 (amended): the parser is a pure function of its input up to the
random uuid draws: two runs with arbitrary id streams return Documents that
are equal after erasing the id fields — the same blocks in all other
fields, the same metadata, and the same diagnostics. -/
theorem claim10_deterministic_up_to_ids (g₁ g₂ : Nat → Nat) (s : List Char) :
    eraseIds (parseIntentTextWith g₁ s) = eraseIds (parseIntentTextWith g₂ s) :=
  (mapDoc_erase g₁ (parseIntentText s)).trans
    (mapDoc_erase g₂ (parseIntentText s)).symm

end IntentText
